import Mathlib

/-!
Verification of the real-time distribution and admission-control core of the
event-ingestion system: the sliding-window rate limiter
(backend/internal/middleware/ratelimit.go), the authentication middleware
(internal/auth), the WebSocket distribution hub (internal/websocket), and the
event-ingestion orchestration (backend/internal/handlers/handlers.go).

Time instants and durations are modelled as integers (Go nanoseconds);
`t.After(s)` becomes `s < t`.
-/

namespace EIS

/-! ## Rate limiter (ratelimit.go) -/

/-- Go map lookup `rl.requests[key]`: a missing key yields the nil slice `[]`.
The map itself is modelled as an association list. -/
def lookupReqs : List (String × List Int) → String → List Int
  | [], _ => []
  | (k', v) :: m, k => if k' == k then v else lookupReqs m k

/-- Go map assignment `rl.requests[key] = v`: replace the binding if present,
otherwise insert it. -/
def setReqs : List (String × List Int) → String → List Int → List (String × List Int)
  | [], k, v => [(k, v)]
  | (k', v') :: m, k, v => if k' == k then (k, v) :: m else (k', v') :: setReqs m k v

/-- `RateLimiter` of ratelimit.go: per-key recorded admission timestamps, a
configured `limit` (Go `int`) and a `window` duration. -/
structure RateLimiter where
  requests : List (String × List Int)
  limit : Int
  window : Int
deriving DecidableEq

/-- `NewRateLimiter(requestsPerMinute)`: empty map, the given limit, and a
window of one minute (in nanoseconds). -/
def NewRateLimiter (requestsPerMinute : Int) : RateLimiter :=
  { requests := [], limit := requestsPerMinute, window := 60000000000 }

/-- The prune step shared by `Allow` and `GetRemainingRequests`
(`windowStart := now.Add(-rl.window)`; keep the timestamps `t` with
`t.After(windowStart)`, i.e. strictly after it). -/
def pruned (rl : RateLimiter) (key : String) (now : Int) : List Int :=
  (lookupReqs rl.requests key).filter (fun t => now - rl.window < t)

/-- `Allow(key)` of ratelimit.go evaluated at instant `now`: prune the key's
record, reject if at least `limit` timestamps remain (storing the pruned
record), otherwise append `now` and admit. -/
def RateLimiter.Allow (rl : RateLimiter) (key : String) (now : Int) : Bool × RateLimiter :=
  let validRequests := pruned rl key now
  if rl.limit ≤ (validRequests.length : Int) then
    (false, { rl with requests := setReqs rl.requests key validRequests })
  else
    (true, { rl with requests := setReqs rl.requests key (validRequests ++ [now]) })

/-- `GetRemainingRequests(key)` of ratelimit.go evaluated at instant `now`:
count the in-window timestamps and return `limit - count`, clamped at zero. -/
def RateLimiter.GetRemainingRequests (rl : RateLimiter) (key : String) (now : Int) : Int :=
  let count := (pruned rl key now).length
  let remaining := rl.limit - (count : Int)
  if remaining < 0 then 0 else remaining

/-- A sequence of `Allow` calls for one key at the given instants, returning
the individual verdicts and the final limiter state. -/
def runAllows (rl : RateLimiter) (key : String) : List Int → List Bool × RateLimiter
  | [] => ([], rl)
  | t :: ts =>
    let r := rl.Allow key t
    let rest := runAllows r.2 key ts
    (r.1 :: rest.1, rest.2)

/-- A sequence of `Allow` calls for arbitrary keys. -/
def runAllowsMulti (rl : RateLimiter) : List (String × Int) → List Bool × RateLimiter
  | [] => ([], rl)
  | c :: cs =>
    let r := rl.Allow c.1 c.2
    let rest := runAllowsMulti r.2 cs
    (r.1 :: rest.1, rest.2)

/-! ## Authentication (internal/auth, part_001) -/

/-- `models.Tenant` (internal/models), restricted to the fields the core
reads: id, name, admission key and the active flag. -/
structure Tenant where
  id : String
  name : String
  apiKey : String
  active : Bool
deriving DecidableEq

/-- `Database.GetTenantByID`: `First(&tenant, "id = ?", id)` — the first row
whose id matches, or a not-found signal. -/
def getTenantByID (db : List Tenant) (id : String) : Option Tenant :=
  db.find? (fun t => t.id == id)

/-- `Database.GetTenantByAPIKey`: `First(&tenant, "api_key = ?", apiKey)`. -/
def getTenantByAPIKey (db : List Tenant) (apiKey : String) : Option Tenant :=
  db.find? (fun t => t.apiKey == apiKey)

/-- `AuthClaims` of internal/auth: tenant id, admission key, and the
registered JWT claims written by `GenerateJWT`. -/
structure AuthClaims where
  tenantID : String
  apiKey : String
  expiresAt : Int
  issuedAt : Int
  notBefore : Int
  issuer : String
  subject : String
deriving DecidableEq

/-- A parsed JWT: signing-method name, claims, and the signature value. The
wire encoding (base64/JSON) is transport handled by the external jwt library;
the token is modelled post-parse. -/
structure Token where
  alg : String
  claims : AuthClaims
  sig : Int
deriving DecidableEq

/-- The keyfunc check `token.Method.(*jwt.SigningMethodHMAC)`: the HMAC
family of signing methods. -/
def isHMAC (alg : String) : Bool :=
  alg == "HS256" || alg == "HS384" || alg == "HS512"

/-- Failure cases of JWT verification. -/
inductive JWTError where
  | badMethod
  | badSignature
  | expired
  | notYetValid
deriving DecidableEq

/-- `validateJWT` of internal/auth. The jwt/v5 library is modelled by a MAC
function parameter `mac` (method name, secret, claims ↦ signature): parsing
rejects a non-HMAC method (the keyfunc), then verifies the signature, then
validates the registered claims — expired when `exp ≤ now`, not yet valid
when `now < nbf`. -/
def validateJWT (mac : String → String → AuthClaims → Int) (secret : String)
    (tok : Token) (now : Int) : Except JWTError AuthClaims :=
  if isHMAC tok.alg = false then .error .badMethod
  else if tok.sig ≠ mac tok.alg secret tok.claims then .error .badSignature
  else if tok.claims.expiresAt ≤ now then .error .expired
  else if now < tok.claims.notBefore then .error .notYetValid
  else .ok tok.claims

/-- `GenerateJWT` of internal/auth: claims embedding tenant id and admission
key, `exp = now + jwtExpiry`, `iat = nbf = now`, fixed issuer, subject the
tenant id; signed with HS256. -/
def GenerateJWT (mac : String → String → AuthClaims → Int) (secret : String)
    (jwtExpiry : Int) (tenant : Tenant) (now : Int) : Token :=
  let claims : AuthClaims :=
    { tenantID := tenant.id, apiKey := tenant.apiKey,
      expiresAt := now + jwtExpiry, issuedAt := now, notBefore := now,
      issuer := "event-ingestion-system", subject := tenant.id }
  { alg := "HS256", claims := claims, sig := mac "HS256" secret claims }

/-- The credentials of an inbound request as seen by `Authenticate`:
`bearerToken = some tok` models an `Authorization: Bearer ...` header whose
token parses, `none` a missing or non-Bearer header; `apiKey` is the value of
the configured API-key header (empty string when absent, as in Go). -/
structure Request where
  bearerToken : Option Token
  apiKey : String
deriving DecidableEq

/-- Observable outcome of the `Authenticate` middleware: the context values
set on admission, or the single generic 401 rejection. -/
inductive AuthOutcome where
  | authJWT (tenantID apiKey : String)
  | authAPIKey (tenantID apiKey : String) (tenant : Tenant)
  | unauthorized
deriving DecidableEq

/-- The API-key branch of `Authenticate` (part_001 lines 63-75): when the
header is non-empty, look the tenant up by key; admit only when found and
active; every failure falls through to the one generic 401. -/
def tryAPIKey (db : List Tenant) (apiKey : String) : AuthOutcome :=
  if apiKey ≠ "" then
    match getTenantByAPIKey db apiKey with
    | some tenant =>
      if tenant.active then .authAPIKey tenant.id apiKey tenant else .unauthorized
    | none => .unauthorized
  else .unauthorized

/-- `Authenticate` of internal/auth: try the Bearer token first; if it
verifies, admit with the embedded claims (no persistence lookup); otherwise
fall through to the API-key branch. -/
def Authenticate (mac : String → String → AuthClaims → Int) (secret : String)
    (db : List Tenant) (now : Int) (req : Request) : AuthOutcome :=
  match req.bearerToken with
  | some tok =>
    match validateJWT mac secret tok now with
    | .ok claims => .authJWT claims.tenantID claims.apiKey
    | .error _ => tryAPIKey db req.apiKey
  | none => tryAPIKey db req.apiKey

/-! ## Distribution hub (internal/websocket, part_003) -/

/-- `Client` of internal/websocket: tenant binding, the bounded outbound
channel (`send`, modelled as a queue plus its capacity), and whether the
channel has been closed. `id` models Go pointer identity of the client. -/
structure HClient where
  id : Nat
  tenantID : String
  send : List String
  cap : Nat
  closed : Bool
deriving DecidableEq

/-- `models.Event`, restricted to the fields `ToEventResponse` reads. -/
structure EventM where
  id : Nat
  tenantID : String
  eventType : String
  timestamp : Int
  metadata : String
  createdAt : Int
deriving DecidableEq

/-- `models.EventResponse`. -/
structure EventResponse where
  id : Nat
  tenantID : String
  eventType : String
  timestamp : Int
  metadata : Option String
  createdAt : Int
deriving DecidableEq

/-- `Event.ToEventResponse` of internal/models: copies the fields, with a nil
metadata payload when the stored metadata string is empty. -/
def EventM.toEventResponse (e : EventM) : EventResponse :=
  { id := e.id, tenantID := e.tenantID, eventType := e.eventType,
    timestamp := e.timestamp,
    metadata := if e.metadata = "" then none else some e.metadata,
    createdAt := e.createdAt }

/-- The hub's live client set (`h.clients`). -/
structure Hub where
  clients : List HClient
deriving DecidableEq

/-- `HandleWebSocket` registers a fresh client with an empty outbound queue
of capacity 256. -/
def newClient (id : Nat) (tenantID : String) : HClient :=
  { id := id, tenantID := tenantID, send := [], cap := 256, closed := false }

/-- The fan-out loop of `BroadcastToTenant` (part_003 lines 93-102) over the
client set: for each client of the tenant, a non-blocking enqueue
(`select`/`default`) — append when the channel has room, otherwise close the
channel and delete the client. Returns the surviving clients and the dropped
(closed) ones. -/
def broadcastStep (tenantID data : String) : List HClient → List HClient × List HClient
  | [] => ([], [])
  | c :: cs =>
    let rest := broadcastStep tenantID data cs
    if c.tenantID == tenantID then
      if c.send.length < c.cap then
        ({ c with send := c.send ++ [data] } :: rest.1, rest.2)
      else
        (rest.1, { c with closed := true } :: rest.2)
    else (c :: rest.1, rest.2)

/-- `Hub.BroadcastToTenant`: serialize the event response once
(`json.Marshal`, modelled by the parameter `marshal`; a marshal error returns
early touching nothing), then run the fan-out loop. -/
def Hub.BroadcastToTenant (marshal : EventResponse → Option String) (h : Hub)
    (tenantID : String) (ev : EventM) : Option (Hub × List HClient) :=
  match marshal ev.toEventResponse with
  | none => none
  | some data =>
    let p := broadcastStep tenantID data h.clients
    some (⟨p.1⟩, p.2)

/-! ## Ingestion handler (handlers.go IngestEvent) -/

/-- Outcomes of the persistence lookups (`gorm.ErrRecordNotFound` vs any
other error). -/
inductive DBErr where
  | notFound
  | other
deriving DecidableEq

/-- Oracle for the request-dependent checks of `IngestEvent` (handlers.go
lines 189-251), in the order the code performs them: JSON binding, tenant-id
UUID parse, the `GetTenantByID` lookup, event-type validation, timestamp
parse, metadata marshal check, and the `CreateEvent` write. -/
structure IngestDeps where
  parseOK : Bool
  uuidOK : Bool
  tenantLookup : Except DBErr Tenant
  eventTypeOK : Bool
  timestampOK : Bool
  metadataOK : Bool
  createOK : Bool
  event : EventM

/-- The response `IngestEvent` writes: one constructor per early-return error
path, and the 201 payload on success. -/
inductive IngestResult where
  | badRequest
  | badTenantID
  | tenantNotFound
  | dbError
  | tenantInactive
  | badEventType
  | badTimestamp
  | badMetadata
  | createFailed
  | created (id : Nat) (tenantID eventType : String) (timestamp : Int)
deriving DecidableEq

/-- `IngestEvent` of handlers.go: the validation/persistence pipeline, then —
only after a successful `CreateEvent` — the fire-and-forget
`go h.hub.BroadcastToTenant(...)`, whose outcome is discarded. Returns the
HTTP response, the hub state after the (possibly skipped) fan-out, and
whether fan-out was attempted. -/
def IngestEvent (marshal : EventResponse → Option String) (d : IngestDeps)
    (hub : Hub) : IngestResult × Hub × Bool :=
  if d.parseOK = false then (.badRequest, hub, false)
  else if d.uuidOK = false then (.badTenantID, hub, false)
  else
    match d.tenantLookup with
    | .error .notFound => (.tenantNotFound, hub, false)
    | .error .other => (.dbError, hub, false)
    | .ok tenant =>
      if tenant.active = false then (.tenantInactive, hub, false)
      else if d.eventTypeOK = false then (.badEventType, hub, false)
      else if d.timestampOK = false then (.badTimestamp, hub, false)
      else if d.metadataOK = false then (.badMetadata, hub, false)
      else if d.createOK = false then (.createFailed, hub, false)
      else
        let hub2 :=
          match Hub.BroadcastToTenant marshal hub d.event.tenantID d.event with
          | none => hub
          | some p => p.1
        (.created d.event.id d.event.tenantID d.event.eventType d.event.timestamp,
          hub2, true)

/-! ## Rate-limit middleware (ratelimit.go RateLimitMiddleware) -/

/-- Whether the middleware passed the request on (`c.Next()`) or aborted it
with 429. -/
inductive MWOutcome where
  | nexted
  | rejected
deriving DecidableEq

/-- Observable effect of one `RateLimitMiddleware` invocation: the control
outcome, the response headers it set, the limiter state afterwards, and
whether `Allow` was consulted. -/
structure MWResult where
  outcome : MWOutcome
  headers : List (String × String)
  limiter : RateLimiter
  allowCalled : Bool
deriving DecidableEq

/-- The `X-RateLimit-Reset` value `time.Now().Add(time.Minute)`; RFC3339
formatting is abstracted to decimal rendering of the instant. -/
def formatReset (now : Int) : String :=
  toString (now + 60000000000)

/-- `RateLimitMiddleware` of ratelimit.go: pass straight through when
disabled or when the context carries no tenant id; otherwise consult
`Allow`, answering 429 with the retry headers on rejection, or setting the
advisory headers and passing on. -/
def RateLimitMiddleware (rl : RateLimiter) (enabled : Bool) (tenantID : String)
    (now : Int) : MWResult :=
  if enabled = false then ⟨.nexted, [], rl, false⟩
  else if tenantID = "" then ⟨.nexted, [], rl, false⟩
  else
    let r := rl.Allow tenantID now
    if r.1 = false then
      ⟨.rejected,
        [("X-RateLimit-Limit", toString rl.limit), ("X-RateLimit-Remaining", "0"),
          ("X-RateLimit-Reset", formatReset now), ("Retry-After", "60")],
        r.2, true⟩
    else
      ⟨.nexted,
        [("X-RateLimit-Limit", toString rl.limit),
          ("X-RateLimit-Remaining", toString (r.2.GetRemainingRequests tenantID now)),
          ("X-RateLimit-Reset", formatReset now)],
        r.2, true⟩

/-! ## Concrete fixtures used by counterexamples and witnesses -/

/-- A concrete MAC function instantiating the `mac` parameter. -/
def mac0 : String → String → AuthClaims → Int :=
  fun _ _ c => (c.tenantID.length : Int) + c.expiresAt

/-- An inactive tenant holding admission key "k1". -/
def tenantInactive0 : Tenant :=
  { id := "t1", name := "Tenant One", apiKey := "k1", active := false }

/-- An active tenant holding admission key "k2". -/
def tenantActive0 : Tenant :=
  { id := "t2", name := "Tenant Two", apiKey := "k2", active := true }

/-- A token issued for the inactive tenant, expiring at instant 100. -/
def tok0 : Token := GenerateJWT mac0 "sec" 100 tenantInactive0 0

/-- A registered client of tenant "tA" whose 256-slot outbound queue is
full. -/
def fullClient0 : HClient :=
  { id := 1, tenantID := "tA", send := List.replicate 256 "m", cap := 256,
    closed := false }

/-- A concrete event of tenant "tA". -/
def event0 : EventM :=
  { id := 7, tenantID := "tA", eventType := "type.a", timestamp := 3,
    metadata := "", createdAt := 5 }

/-- A concrete serializer instantiating the `marshal` parameter. -/
def marshal0 : EventResponse → Option String :=
  fun _ => some "payload"

end EIS

namespace EIS

theorem lookupReqs_setReqs_same (m : List (String × List Int)) (k : String) (v : List Int) :
    lookupReqs (setReqs m k v) k = v := by
  induction m with
  | nil => simp [lookupReqs, setReqs]
  | cons p m ih =>
    obtain ⟨k', v'⟩ := p
    by_cases h : k' = k
    · simp [setReqs, h, lookupReqs]
    · simp [setReqs, h, lookupReqs, ih]

theorem lookupReqs_setReqs_other (m : List (String × List Int)) (k k' : String) (v : List Int)
    (h : k' ≠ k) : lookupReqs (setReqs m k v) k' = lookupReqs m k' := by
  induction m with
  | nil => simp [lookupReqs, setReqs, Ne.symm h]
  | cons p m ih =>
    obtain ⟨k0, v0⟩ := p
    by_cases h0 : k0 = k
    · subst h0
      simp [setReqs, lookupReqs, Ne.symm h]
    · by_cases h1 : k0 = k'
      · simp [setReqs, lookupReqs, h0, h1, h]
      · simp [setReqs, lookupReqs, h0, h1, h, ih]

theorem Allow_limit (rl : RateLimiter) (key : String) (now : Int) :
    (rl.Allow key now).2.limit = rl.limit := by
  simp only [RateLimiter.Allow]
  split <;> rfl

theorem Allow_window (rl : RateLimiter) (key : String) (now : Int) :
    (rl.Allow key now).2.window = rl.window := by
  simp only [RateLimiter.Allow]
  split <;> rfl

theorem Allow_admit (rl : RateLimiter) (key : String) (now : Int)
    (h : ((pruned rl key now).length : Int) < rl.limit) :
    rl.Allow key now =
      (true, { rl with requests := setReqs rl.requests key (pruned rl key now ++ [now]) }) := by
  simp only [RateLimiter.Allow]
  rw [if_neg (not_le.mpr h)]

theorem Allow_reject (rl : RateLimiter) (key : String) (now : Int)
    (h : rl.limit ≤ ((pruned rl key now).length : Int)) :
    rl.Allow key now =
      (false, { rl with requests := setReqs rl.requests key (pruned rl key now) }) := by
  simp only [RateLimiter.Allow]
  rw [if_pos h]

theorem runAllows_limit (key : String) (ts : List Int) : ∀ rl : RateLimiter,
    (runAllows rl key ts).2.limit = rl.limit := by
  induction ts with
  | nil => intro rl; rfl
  | cons t ts ih =>
    intro rl
    simp only [runAllows]
    rw [ih]
    exact Allow_limit rl key t

theorem runAllows_window (key : String) (ts : List Int) : ∀ rl : RateLimiter,
    (runAllows rl key ts).2.window = rl.window := by
  induction ts with
  | nil => intro rl; rfl
  | cons t ts ih =>
    intro rl
    simp only [runAllows]
    rw [ih]
    exact Allow_window rl key t

theorem pruned_length_le (rl : RateLimiter) (key : String) (now : Int) :
    (pruned rl key now).length ≤ (lookupReqs rl.requests key).length :=
  List.length_filter_le _ _

theorem pruned_eq_of_all_in (rl : RateLimiter) (key : String) (now : Int)
    (h : ∀ t ∈ lookupReqs rl.requests key, now - rl.window < t) :
    pruned rl key now = lookupReqs rl.requests key := by
  unfold pruned
  rw [List.filter_eq_self]
  intro a ha
  simpa using h a ha

theorem runAllows_admit_all (key : String) (us : List Int) : ∀ rl : RateLimiter,
    ((lookupReqs rl.requests key).length : Int) + (us.length : Int) ≤ rl.limit →
    (runAllows rl key us).1 = List.replicate us.length true := by
  induction us with
  | nil => intro rl _; rfl
  | cons u us ih =>
    intro rl hfit
    have hfl := pruned_length_le rl key u
    have hlt : ((pruned rl key u).length : Int) < rl.limit := by
      simp only [List.length_cons] at hfit
      push_cast at hfit ⊢
      omega
    have hstep := Allow_admit rl key u hlt
    have hrec := ih { rl with requests := setReqs rl.requests key (pruned rl key u ++ [u]) }
      (by
        rw [lookupReqs_setReqs_same]
        simp only [List.length_append, List.length_cons, List.length_nil] at hfit ⊢
        push_cast at hfit ⊢
        omega)
    simp only [runAllows, hstep, hrec, List.length_cons, List.replicate_succ]

theorem runAllows_track (key : String) (ts : List Int) : ∀ rl : RateLimiter,
    ((lookupReqs rl.requests key).length : Int) + (ts.length : Int) ≤ rl.limit →
    (∀ s ∈ ts, ∀ t ∈ lookupReqs rl.requests key ++ ts, s - rl.window < t) →
    (runAllows rl key ts).1 = List.replicate ts.length true ∧
      lookupReqs (runAllows rl key ts).2.requests key = lookupReqs rl.requests key ++ ts := by
  induction ts with
  | nil => intro rl _ _; exact ⟨rfl, by simp [runAllows]⟩
  | cons t ts ih =>
    intro rl hfit hnp
    have hkeep : pruned rl key t = lookupReqs rl.requests key :=
      pruned_eq_of_all_in rl key t (fun a ha => hnp t (by simp) a (by simp [ha]))
    have hlt : ((pruned rl key t).length : Int) < rl.limit := by
      rw [hkeep]
      simp only [List.length_cons] at hfit
      push_cast at hfit ⊢
      omega
    have hstep := Allow_admit rl key t hlt
    rw [hkeep] at hstep
    have hrec := ih { rl with requests := setReqs rl.requests key (lookupReqs rl.requests key ++ [t]) }
      (by
        rw [lookupReqs_setReqs_same]
        simp only [List.length_append, List.length_cons, List.length_nil] at hfit ⊢
        push_cast at hfit ⊢
        omega)
      (by
        intro s hs x hx
        rw [lookupReqs_setReqs_same] at hx
        refine hnp s (by simp [hs]) x ?_
        simp only [List.append_assoc, List.singleton_append] at hx
        exact hx)
    refine ⟨?_, ?_⟩
    · simp only [runAllows, hstep, hrec.1, List.length_cons, List.replicate_succ]
    · have h2 := hrec.2
      rw [lookupReqs_setReqs_same] at h2
      simp only [runAllows, hstep]
      rw [h2]
      simp [List.append_assoc]

theorem runAllows_append (key : String) (xs ys : List Int) : ∀ rl : RateLimiter,
    runAllows rl key (xs ++ ys) =
      ((runAllows rl key xs).1 ++ (runAllows (runAllows rl key xs).2 key ys).1,
        (runAllows (runAllows rl key xs).2 key ys).2) := by
  induction xs with
  | nil => intro rl; simp [runAllows]
  | cons x xs ih => intro rl; simp [runAllows, ih]

theorem runAllowsMulti_all_empty (calls : List (String × Int)) : ∀ rl : RateLimiter,
    rl.limit = 0 → (∀ k, lookupReqs rl.requests k = []) →
    (runAllowsMulti rl calls).1 = List.replicate calls.length false ∧
    ∀ k, lookupReqs (runAllowsMulti rl calls).2.requests k = [] := by
  induction calls with
  | nil => intro rl _ hemp; exact ⟨rfl, hemp⟩
  | cons c cs ih =>
    intro rl h0 hemp
    have hpr : pruned rl c.1 c.2 = [] := by
      unfold pruned
      rw [hemp c.1]
      rfl
    have hstep : rl.Allow c.1 c.2 =
        (false, { rl with requests := setReqs rl.requests c.1 [] }) := by
      have hr := Allow_reject rl c.1 c.2 (by rw [hpr]; simp [h0])
      rw [hpr] at hr
      exact hr
    have hrec := ih { rl with requests := setReqs rl.requests c.1 [] } h0
      (by
        intro k
        by_cases hk : k = c.1
        · subst hk; exact lookupReqs_setReqs_same _ _ _
        · rw [lookupReqs_setReqs_other _ _ _ _ hk]; exact hemp k)
    exact ⟨by simp only [runAllowsMulti, hstep, hrec.1, List.length_cons,
      List.replicate_succ], by simpa [runAllowsMulti, hstep] using hrec.2⟩

/-- C2 counterexample: the claim as stated fails at the window boundary. With
limit 1 and window 60, two calls at instants 0 and 60 lie within an interval
of duration 60 ≤ window, yet both are admitted: the prune predicate
`t.After(windowStart)` is strict, so at the second call the timestamp 0 is
discarded and the in-window count is 0, not 1 — the (L+1)-th call within an
interval of duration exactly the window is admitted, not rejected. -/
theorem rateLimiter_window_boundary_cex :
    (runAllows { requests := [], limit := 1, window := 60 } "t" [0, 60]).1 = [true, true] ∧
      (60 : Int) - (0 : Int) ≤ 60 := by
  decide

/-- C2 (amended): for a fresh key, each of the first L = limit calls is
admitted (at any instants whatever); when all L + 1 call instants lie within
a span strictly shorter than the window, the (L+1)-th call is rejected; and a
further call at least one window after the first admitted call is admitted
again. -/
theorem rateLimiter_sliding_window (rl : RateLimiter) (key : String)
    (t0 : Int) (rest : List Int) (tnext tR : Int)
    (h0 : lookupReqs rl.requests key = [])
    (hlen : (((t0 :: rest).length : Nat) : Int) = rl.limit)
    (hspan : ∀ s ∈ (t0 :: rest) ++ [tnext], ∀ t ∈ (t0 :: rest) ++ [tnext], s - rl.window < t)
    (hR : t0 + rl.window ≤ tR) :
    (∀ us : List Int, ((us.length : Int) ≤ rl.limit) →
        (runAllows rl key us).1 = List.replicate us.length true) ∧
    (runAllows rl key ((t0 :: rest) ++ [tnext])).1
        = List.replicate (t0 :: rest).length true ++ [false] ∧
    ((runAllows rl key ((t0 :: rest) ++ [tnext])).2.Allow key tR).1 = true := by
  have hfit1 : ((lookupReqs rl.requests key).length : Int) + ((t0 :: rest).length : Int) ≤ rl.limit := by
    rw [h0, hlen]
    simp
  have hnp1 : ∀ s ∈ t0 :: rest, ∀ x ∈ lookupReqs rl.requests key ++ (t0 :: rest),
      s - rl.window < x := by
    intro s hs x hx
    rw [h0, List.nil_append] at hx
    exact hspan s (List.mem_append_left _ hs) x (List.mem_append_left _ hx)
  have htrack := runAllows_track key (t0 :: rest) rl hfit1 hnp1
  have hlook1 : lookupReqs (runAllows rl key (t0 :: rest)).2.requests key = t0 :: rest := by
    rw [htrack.2, h0, List.nil_append]
  have hlim1 : (runAllows rl key (t0 :: rest)).2.limit = rl.limit := runAllows_limit key _ rl
  have hwin1 : (runAllows rl key (t0 :: rest)).2.window = rl.window := runAllows_window key _ rl
  have hallin : ∀ x ∈ lookupReqs (runAllows rl key (t0 :: rest)).2.requests key,
      tnext - (runAllows rl key (t0 :: rest)).2.window < x := by
    intro x hx
    rw [hlook1] at hx
    rw [hwin1]
    exact hspan tnext (List.mem_append_right _ (by simp)) x (List.mem_append_left _ hx)
  have hprun1 : pruned (runAllows rl key (t0 :: rest)).2 key tnext = t0 :: rest := by
    rw [pruned_eq_of_all_in _ _ _ hallin, hlook1]
  have hfull : (runAllows rl key (t0 :: rest)).2.limit
      ≤ ((pruned (runAllows rl key (t0 :: rest)).2 key tnext).length : Int) := by
    rw [hprun1, hlim1, ← hlen]
  have hstep2 := Allow_reject (runAllows rl key (t0 :: rest)).2 key tnext hfull
  rw [hprun1] at hstep2
  have happ := runAllows_append key (t0 :: rest) [tnext] rl
  have hsing : ∀ (r : RateLimiter) (t : Int),
      runAllows r key [t] = ([(r.Allow key t).1], (r.Allow key t).2) := by
    intro r t
    rfl
  have hrun2 : (runAllows rl key ((t0 :: rest) ++ [tnext])).1
      = List.replicate (t0 :: rest).length true ++ [false] := by
    rw [happ, htrack.1, hsing, hstep2]
  have hfinal : (runAllows rl key ((t0 :: rest) ++ [tnext])).2
      = { (runAllows rl key (t0 :: rest)).2 with
          requests := setReqs (runAllows rl key (t0 :: rest)).2.requests key (t0 :: rest) } := by
    rw [happ, hsing, hstep2]
  have hlook2 : lookupReqs (runAllows rl key ((t0 :: rest) ++ [tnext])).2.requests key
      = t0 :: rest := by
    rw [hfinal]
    exact lookupReqs_setReqs_same _ _ _
  have hlim2 : (runAllows rl key ((t0 :: rest) ++ [tnext])).2.limit = rl.limit := by
    rw [hfinal]
    exact hlim1
  have hwin2 : (runAllows rl key ((t0 :: rest) ++ [tnext])).2.window = rl.window := by
    rw [hfinal]
    exact hwin1
  have hdrop : (pruned (runAllows rl key ((t0 :: rest) ++ [tnext])).2 key tR).length
      ≤ rest.length := by
    unfold pruned
    rw [hlook2, hwin2]
    have ht0 : ¬ (tR - rl.window < t0) := by omega
    rw [List.filter_cons_of_neg (by simpa using ht0)]
    exact List.length_filter_le _ rest
  have hroom : ((pruned (runAllows rl key ((t0 :: rest) ++ [tnext])).2 key tR).length : Int)
      < (runAllows rl key ((t0 :: rest) ++ [tnext])).2.limit := by
    rw [hlim2, ← hlen]
    simp only [List.length_cons]
    push_cast
    omega
  have hadm := Allow_admit _ key tR hroom
  refine ⟨?_, hrun2, ?_⟩
  · intro us hus
    refine runAllows_admit_all key us rl ?_
    rw [h0]
    simpa using hus
  · rw [hadm]

/-- C2 witness: limit 1, window 60, calls at 0 then 30 (span 30 < 60) give
admit then reject; a call at 60 = 0 + window is admitted again. -/
theorem rateLimiter_sliding_window_witness :
    (runAllows { requests := [], limit := 1, window := 60 } "t" (((0 : Int) :: []) ++ [30])).1
        = List.replicate ((0 : Int) :: ([] : List Int)).length true ++ [false] ∧
    ((runAllows { requests := [], limit := 1, window := 60 } "t"
        (((0 : Int) :: []) ++ [30])).2.Allow "t" 60).1 = true := by
  have h := rateLimiter_sliding_window { requests := [], limit := 1, window := 60 } "t"
    0 [] 30 60 rfl (by decide) (by decide) (by decide)
  exact ⟨h.2.1, h.2.2⟩

/-- C8: after L = limit admissions for a fresh key, all still inside the
window at the query instant, `GetRemainingRequests` returns 0; with an empty
record — in particular for a never-seen key, which the map lookup gives the
nil slice — it returns the full limit. -/
theorem rateLimiter_remaining_spec (rl : RateLimiter) (key : String) :
    (∀ (ts : List Int) (q : Int),
        lookupReqs rl.requests key = [] →
        ((ts.length : Int) = rl.limit) →
        (∀ t ∈ ts, q - rl.window < t ∧ t ≤ q) →
        (runAllows rl key ts).2.GetRemainingRequests key q = 0) ∧
    (∀ q : Int, lookupReqs rl.requests key = [] → 0 ≤ rl.limit →
        rl.GetRemainingRequests key q = rl.limit) := by
  constructor
  · intro ts q h0 hlen hin
    have hfit : ((lookupReqs rl.requests key).length : Int) + (ts.length : Int) ≤ rl.limit := by
      rw [h0, hlen]
      simp
    have hnp : ∀ s ∈ ts, ∀ x ∈ lookupReqs rl.requests key ++ ts, s - rl.window < x := by
      intro s hs x hx
      rw [h0, List.nil_append] at hx
      have h1 := (hin s hs).2
      have h2 := (hin x hx).1
      omega
    have htrack := runAllows_track key ts rl hfit hnp
    have hlook : lookupReqs (runAllows rl key ts).2.requests key = ts := by
      rw [htrack.2, h0, List.nil_append]
    have hpr : pruned (runAllows rl key ts).2 key q = ts := by
      unfold pruned
      rw [hlook, runAllows_window]
      rw [List.filter_eq_self]
      intro a ha
      simpa using (hin a ha).1
    simp only [RateLimiter.GetRemainingRequests, hpr]
    rw [runAllows_limit, ← hlen]
    simp
  · intro q h0 hl
    have hpr : pruned rl key q = [] := by
      unfold pruned
      rw [h0]
      rfl
    simp only [RateLimiter.GetRemainingRequests, hpr]
    simp only [List.length_nil, Nat.cast_zero, sub_zero]
    rw [if_neg (not_lt.mpr hl)]

/-- C8 witness: limit 2, window 60; two admissions at 1 and 2 queried at 2
leave 0 remaining; the untouched (unknown-key) limiter reports 2. -/
theorem rateLimiter_remaining_spec_witness :
    (runAllows { requests := [], limit := 2, window := 60 } "t" [1, 2]).2.GetRemainingRequests "t" 2 = 0 ∧
    RateLimiter.GetRemainingRequests { requests := [], limit := 2, window := 60 } "t" 5 = 2 := by
  constructor
  · exact (rateLimiter_remaining_spec { requests := [], limit := 2, window := 60 } "t").1
      [1, 2] 2 rfl (by decide) (by decide)
  · exact (rateLimiter_remaining_spec { requests := [], limit := 2, window := 60 } "t").2
      5 rfl (by decide)

/-- C9: when the pruned in-window count reaches the limit, `Allow` answers
false and stores only the pruned record — `GetRemainingRequests` at any
instant from the call on is unchanged by the rejected call; and with a limit
of zero, any call sequence from an all-empty record is entirely rejected and
every record stays empty. -/
theorem rateLimiter_reject_no_record (rl : RateLimiter) (key : String) (now : Int) :
    (rl.limit ≤ ((pruned rl key now).length : Int) →
      (rl.Allow key now).1 = false ∧
      ∀ q : Int, now ≤ q →
        (rl.Allow key now).2.GetRemainingRequests key q = rl.GetRemainingRequests key q) ∧
    (rl.limit = 0 →
      ∀ calls : List (String × Int),
        (∀ k : String, lookupReqs rl.requests k = []) →
        (runAllowsMulti rl calls).1 = List.replicate calls.length false ∧
        ∀ k : String, lookupReqs (runAllowsMulti rl calls).2.requests k = []) := by
  constructor
  · intro hfull
    have hstep := Allow_reject rl key now hfull
    have hsnd : (rl.Allow key now).2
        = { rl with requests := setReqs rl.requests key (pruned rl key now) } := by
      rw [hstep]
    refine ⟨by rw [hstep], ?_⟩
    intro q hq
    have hprq : pruned (rl.Allow key now).2 key q = pruned rl key q := by
      rw [hsnd]
      simp only [pruned, lookupReqs_setReqs_same, List.filter_filter]
      refine List.filter_congr ?_
      intro a _
      by_cases h : q - rl.window < a
      · have h2 : now - rl.window < a := by omega
        simp [h, h2]
      · simp [h]
    simp only [RateLimiter.GetRemainingRequests, hprq, Allow_limit]
  · intro h0 calls hemp
    exact runAllowsMulti_all_empty calls rl h0 hemp

/-- C9 witness: with limit 0 the very first call is rejected, and a
one-call sequence records nothing. -/
theorem rateLimiter_reject_no_record_witness :
    (RateLimiter.Allow { requests := [], limit := 0, window := 60 } "a" 0).1 = false ∧
    (runAllowsMulti { requests := [], limit := 0, window := 60 } [("a", 5)]).1 = [false] := by
  constructor
  · exact ((rateLimiter_reject_no_record { requests := [], limit := 0, window := 60 } "a" 0).1
      (by decide)).1
  · have h := (rateLimiter_reject_no_record { requests := [], limit := 0, window := 60 } "a" 0).2
      rfl [("a", 5)] (fun _ => rfl)
    simpa using h.1

/-- C10: when rate limiting is disabled, or the context carries an empty
tenant id, the middleware passes the request through with no `Allow` call,
no rate-limit headers, and the limiter state untouched. -/
theorem rateLimitMiddleware_bypass (rl : RateLimiter) (enabled : Bool) (tenantID : String)
    (now : Int) (h : enabled = false ∨ tenantID = "") :
    RateLimitMiddleware rl enabled tenantID now =
      { outcome := .nexted, headers := [], limiter := rl, allowCalled := false } := by
  rcases h with h | h
  · simp [RateLimitMiddleware, h]
  · unfold RateLimitMiddleware
    rw [h]
    simp

/-- C10 witness: a disabled middleware invocation is an exact no-op. -/
theorem rateLimitMiddleware_bypass_witness :
    RateLimitMiddleware { requests := [], limit := 5, window := 60 } false "t9" 0 =
      { outcome := .nexted, headers := [],
        limiter := { requests := [], limit := 5, window := 60 }, allowCalled := false } :=
  rateLimitMiddleware_bypass { requests := [], limit := 5, window := 60 } false "t9" 0 (Or.inl rfl)

theorem broadcastStep_dropped_mem (tid data : String) (cs : List HClient) (c : HClient)
    (hc : c ∈ cs) (ht : c.tenantID = tid) (hf : c.cap ≤ c.send.length) :
    { c with closed := true } ∈ (broadcastStep tid data cs).2 := by
  induction cs with
  | nil => cases hc
  | cons d ds ih =>
    rcases List.mem_cons.mp hc with h | h
    · subst h
      simp only [broadcastStep]
      rw [if_pos (by simp [ht]), if_neg (by omega)]
      exact List.mem_cons_self _ _
    · have hm := ih h
      simp only [broadcastStep]
      by_cases h1 : (d.tenantID == tid) = true
      · rw [if_pos h1]
        by_cases h2 : d.send.length < d.cap
        · rw [if_pos h2]
          exact hm
        · rw [if_neg h2]
          exact List.mem_cons_of_mem _ hm
      · rw [if_neg h1]
        exact hm

theorem broadcastStep_live_mem (tid data : String) (cs : List HClient) (c' : HClient)
    (h : c' ∈ (broadcastStep tid data cs).1) :
    ∃ c ∈ cs,
      (c' = c ∧ ¬ (c.tenantID = tid ∧ c.cap ≤ c.send.length)) ∨
      (c' = { c with send := c.send ++ [data] } ∧ c.tenantID = tid ∧ c.send.length < c.cap) := by
  induction cs with
  | nil => cases h
  | cons d ds ih =>
    simp only [broadcastStep] at h
    by_cases h1 : (d.tenantID == tid) = true
    · rw [if_pos h1] at h
      by_cases h2 : d.send.length < d.cap
      · rw [if_pos h2] at h
        rcases List.mem_cons.mp h with h | h
        · exact ⟨d, List.mem_cons_self _ _, Or.inr ⟨h, by simpa using h1, h2⟩⟩
        · obtain ⟨c, hc, hd⟩ := ih h
          exact ⟨c, List.mem_cons_of_mem _ hc, hd⟩
      · rw [if_neg h2] at h
        obtain ⟨c, hc, hd⟩ := ih h
        exact ⟨c, List.mem_cons_of_mem _ hc, hd⟩
    · rw [if_neg h1] at h
      rcases List.mem_cons.mp h with h | h
      · refine ⟨d, List.mem_cons_self _ _, Or.inl ⟨h, ?_⟩⟩
        intro hx
        exact h1 (by simp [hx.1])
      · obtain ⟨c, hc, hd⟩ := ih h
        exact ⟨c, List.mem_cons_of_mem _ hc, hd⟩

theorem broadcastStep_enqueue_mem (tid data : String) (cs : List HClient) (c : HClient)
    (hc : c ∈ cs) (ht : c.tenantID = tid) (hr : c.send.length < c.cap) :
    { c with send := c.send ++ [data] } ∈ (broadcastStep tid data cs).1 := by
  induction cs with
  | nil => cases hc
  | cons d ds ih =>
    rcases List.mem_cons.mp hc with h | h
    · subst h
      simp only [broadcastStep]
      rw [if_pos (by simp [ht]), if_pos hr]
      exact List.mem_cons_self _ _
    · have hm := ih h
      simp only [broadcastStep]
      by_cases h1 : (d.tenantID == tid) = true
      · rw [if_pos h1]
        by_cases h2 : d.send.length < d.cap
        · rw [if_pos h2]
          exact List.mem_cons_of_mem _ hm
        · rw [if_neg h2]
          exact hm
      · rw [if_neg h1]
        exact List.mem_cons_of_mem _ hm

theorem broadcastStep_other_mem (tid data : String) (cs : List HClient) (c : HClient)
    (hc : c ∈ cs) (ht : c.tenantID ≠ tid) :
    c ∈ (broadcastStep tid data cs).1 := by
  induction cs with
  | nil => cases hc
  | cons d ds ih =>
    rcases List.mem_cons.mp hc with h | h
    · subst h
      simp only [broadcastStep]
      rw [if_neg (by simp [ht])]
      exact List.mem_cons_self _ _
    · have hm := ih h
      simp only [broadcastStep]
      by_cases h1 : (d.tenantID == tid) = true
      · rw [if_pos h1]
        by_cases h2 : d.send.length < d.cap
        · rw [if_pos h2]
          exact List.mem_cons_of_mem _ hm
        · rw [if_neg h2]
          exact hm
      · rw [if_neg h1]
        exact List.mem_cons_of_mem _ hm

/-- C4: a matching connection whose bounded queue is full is removed from the
live set (no surviving client carries its identity) and handed back closed;
`BroadcastToTenant` always returns (the enqueue attempt is the non-blocking
`select`/`default`, never a wait). -/
theorem broadcast_drops_full_queue (marshal : EventResponse → Option String) (h : Hub)
    (tid : String) (ev : EventM) (data : String)
    (hm : marshal ev.toEventResponse = some data)
    (hids : (h.clients.map HClient.id).Nodup) :
    ∃ h' dropped, Hub.BroadcastToTenant marshal h tid ev = some (h', dropped) ∧
      ∀ c ∈ h.clients, c.tenantID = tid → c.cap ≤ c.send.length →
        { c with closed := true } ∈ dropped ∧ ∀ c' ∈ h'.clients, c'.id ≠ c.id := by
  refine ⟨⟨(broadcastStep tid data h.clients).1⟩, (broadcastStep tid data h.clients).2, ?_, ?_⟩
  · unfold Hub.BroadcastToTenant
    rw [hm]
  · intro c hc ht hf
    refine ⟨broadcastStep_dropped_mem tid data h.clients c hc ht hf, ?_⟩
    intro c' hc' heq
    obtain ⟨b, hb, hd⟩ := broadcastStep_live_mem tid data h.clients c' hc'
    have hbid : b.id = c.id := by
      rcases hd with ⟨rfl, _⟩ | ⟨rfl, _⟩
      · exact heq
      · simpa using heq
    have hbc : b = c := List.inj_on_of_nodup_map hids hb hc hbid
    subst hbc
    rcases hd with ⟨_, hn⟩ | ⟨_, _, hn⟩
    · exact hn ⟨ht, hf⟩
    · omega

/-- C4 witness: a hub holding one client of tenant tA with a full 256-slot
queue; the publish drops and closes it. -/
theorem broadcast_drops_full_queue_witness :
    ∃ h' dropped,
      Hub.BroadcastToTenant marshal0 { clients := [fullClient0] } "tA" event0
          = some (h', dropped) ∧
        ∀ c ∈ ({ clients := [fullClient0] } : Hub).clients,
          c.tenantID = "tA" → c.cap ≤ c.send.length →
            { c with closed := true } ∈ dropped ∧ ∀ c' ∈ h'.clients, c'.id ≠ c.id :=
  broadcast_drops_full_queue marshal0 { clients := [fullClient0] } "tA" event0 "payload"
    rfl (by decide)

set_option maxRecDepth 8192 in
/-- C5 counterexample: the claim as stated fails for a registered connection
of the target tenant whose queue is full — the serialized event is not
enqueued onto it; the connection is removed and closed instead. -/
theorem broadcast_full_queue_not_enqueued_cex :
    Hub.BroadcastToTenant marshal0 { clients := [fullClient0] } "tA" event0
      = some ({ clients := [] }, [{ fullClient0 with closed := true }]) ∧
    fullClient0.tenantID = "tA" := by
  decide

/-- C5 (amended): publish appends the serialized event at the tail of the
queue of every matching connection that has room (FIFO per connection),
leaves every non-matching connection untouched, and after the publish every
live connection of a different tenant is an unchanged original — no
connection of another tenant receives the event; matching connections with a
full queue are dropped instead of enqueued. -/
theorem broadcast_delivery (marshal : EventResponse → Option String) (h : Hub)
    (tid : String) (ev : EventM) (data : String)
    (hm : marshal ev.toEventResponse = some data) :
    ∃ h' dropped, Hub.BroadcastToTenant marshal h tid ev = some (h', dropped) ∧
      (∀ c ∈ h.clients, c.tenantID = tid → c.send.length < c.cap →
          { c with send := c.send ++ [data] } ∈ h'.clients) ∧
      (∀ c ∈ h.clients, c.tenantID ≠ tid → c ∈ h'.clients) ∧
      (∀ c' ∈ h'.clients, c'.tenantID ≠ tid → c' ∈ h.clients) := by
  refine ⟨⟨(broadcastStep tid data h.clients).1⟩, (broadcastStep tid data h.clients).2,
    ?_, ?_, ?_, ?_⟩
  · unfold Hub.BroadcastToTenant
    rw [hm]
  · intro c hc ht hr
    exact broadcastStep_enqueue_mem tid data h.clients c hc ht hr
  · intro c hc ht
    exact broadcastStep_other_mem tid data h.clients c hc ht
  · intro c' hc' ht
    obtain ⟨b, hb, hd⟩ := broadcastStep_live_mem tid data h.clients c' hc'
    rcases hd with ⟨rfl, _⟩ | ⟨rfl, hbt, _⟩
    · exact hb
    · exact absurd (by simpa using hbt) ht

/-- C5 witness: one client of tA with room and one of tB; the publish
appends to the first and leaves the second untouched. -/
theorem broadcast_delivery_witness :
    ∃ h' dropped,
      Hub.BroadcastToTenant marshal0 { clients := [newClient 1 "tA", newClient 2 "tB"] }
          "tA" event0 = some (h', dropped) ∧
        (∀ c ∈ ({ clients := [newClient 1 "tA", newClient 2 "tB"] } : Hub).clients,
            c.tenantID = "tA" → c.send.length < c.cap →
              { c with send := c.send ++ ["payload"] } ∈ h'.clients) ∧
        (∀ c ∈ ({ clients := [newClient 1 "tA", newClient 2 "tB"] } : Hub).clients,
            c.tenantID ≠ "tA" → c ∈ h'.clients) ∧
        (∀ c' ∈ h'.clients, c'.tenantID ≠ "tA" →
            c' ∈ ({ clients := [newClient 1 "tA", newClient 2 "tB"] } : Hub).clients) :=
  broadcast_delivery marshal0 { clients := [newClient 1 "tA", newClient 2 "tB"] }
    "tA" event0 "payload" rfl

/-- C1 counterexample: the signed-token path performs no tenant-active check.
A token issued for tenant t1, whose stored record is inactive, is admitted by
`Authenticate` at instant 50 (before expiry), setting tenant identity t1 —
yet the resolved tenant's active flag is false. -/
theorem auth_token_ignores_active_cex :
    Authenticate mac0 "sec" [tenantInactive0] 50 { bearerToken := some tok0, apiKey := "" }
        = .authJWT "t1" "k1" ∧
    getTenantByID [tenantInactive0] "t1" = some tenantInactive0 ∧
    tenantInactive0.active = false := by
  decide

/-- C1 (amended): only the admission-key path enforces tenant-active status:
whenever `Authenticate` admits via the API key, the resolved tenant is active
(and is the tenant the persistence lookup returned for that key); the token
path admits on signature and expiry alone, without consulting the flag. -/
theorem authenticate_key_path_active (mac : String → String → AuthClaims → Int)
    (secret : String) (db : List Tenant) (now : Int) (req : Request)
    (tid key : String) (t : Tenant)
    (h : Authenticate mac secret db now req = .authAPIKey tid key t) :
    t.active = true ∧ getTenantByAPIKey db key = some t ∧ tid = t.id := by
  have hk : tryAPIKey db req.apiKey = .authAPIKey tid key t := by
    unfold Authenticate at h
    cases hb : req.bearerToken with
    | none =>
      rw [hb] at h
      exact h
    | some tok =>
      rw [hb] at h
      have h2 : (match validateJWT mac secret tok now with
          | .ok claims => AuthOutcome.authJWT claims.tenantID claims.apiKey
          | .error _ => tryAPIKey db req.apiKey) = AuthOutcome.authAPIKey tid key t := h
      cases hv : validateJWT mac secret tok now with
      | ok c =>
        rw [hv] at h2
        cases h2
      | error e =>
        rw [hv] at h2
        exact h2
  unfold tryAPIKey at hk
  by_cases hne : req.apiKey ≠ ""
  · rw [if_pos hne] at hk
    cases hg : getTenantByAPIKey db req.apiKey with
    | none =>
      rw [hg] at hk
      cases hk
    | some tenant =>
      rw [hg] at hk
      have hk2 : (if tenant.active = true
          then AuthOutcome.authAPIKey tenant.id req.apiKey tenant
          else AuthOutcome.unauthorized) = AuthOutcome.authAPIKey tid key t := hk
      by_cases ha : tenant.active = true
      · rw [if_pos ha] at hk2
        cases hk2
        exact ⟨ha, hg, rfl⟩
      · rw [if_neg ha] at hk2
        cases hk2
  · rw [if_neg hne] at hk
    cases hk

/-- C1 witness: an API-key admission for the active tenant resolves to an
active tenant record. -/
theorem authenticate_key_path_active_witness :
    tenantActive0.active = true ∧
    getTenantByAPIKey [tenantActive0] "k2" = some tenantActive0 ∧
    "t2" = tenantActive0.id :=
  authenticate_key_path_active mac0 "sec" [tenantActive0] 0
    { bearerToken := none, apiKey := "k2" } "t2" "k2" tenantActive0 (by decide)

/-- C3 counterexample: an unknown key and an inactive tenant's valid key
produce the very same observable outcome — the single generic unauthorized
response — so the two failure cases are not distinct errors. -/
theorem resolve_key_no_distinct_errors_cex :
    Authenticate mac0 "sec" [tenantInactive0] 0 { bearerToken := none, apiKey := "nosuch" }
      = Authenticate mac0 "sec" [tenantInactive0] 0 { bearerToken := none, apiKey := "k1" } ∧
    Authenticate mac0 "sec" [tenantInactive0] 0 { bearerToken := none, apiKey := "nosuch" }
      = .unauthorized ∧
    getTenantByAPIKey [tenantInactive0] "nosuch" = none ∧
    getTenantByAPIKey [tenantInactive0] "k1" = some tenantInactive0 ∧
    tenantInactive0.active = false := by
  decide

/-- C3 (amended): the key path rejects with the one generic unauthorized
response both when no tenant matches the key and when the matched tenant is
inactive — the two cases are not distinguished — and succeeds returning the
tenant identity otherwise; with no usable Bearer token the middleware's
outcome is exactly the key path's. -/
theorem resolve_key_outcomes (db : List Tenant) (key : String) (hne : key ≠ "") :
    (getTenantByAPIKey db key = none → tryAPIKey db key = .unauthorized) ∧
    (∀ t : Tenant, getTenantByAPIKey db key = some t → t.active = false →
        tryAPIKey db key = .unauthorized) ∧
    (∀ t : Tenant, getTenantByAPIKey db key = some t → t.active = true →
        tryAPIKey db key = .authAPIKey t.id key t) ∧
    (∀ (mac : String → String → AuthClaims → Int) (secret : String) (now : Int),
        Authenticate mac secret db now { bearerToken := none, apiKey := key }
          = tryAPIKey db key) := by
  refine ⟨?_, ?_, ?_, ?_⟩
  · intro hg
    unfold tryAPIKey
    rw [if_pos hne, hg]
  · intro t hg ha
    unfold tryAPIKey
    rw [if_pos hne, hg]
    simp [ha]
  · intro t hg ha
    unfold tryAPIKey
    rw [if_pos hne, hg]
    simp [ha]
  · intro mac secret now
    rfl

/-- C3 witness: an active tenant's key resolves to that tenant. -/
theorem resolve_key_outcomes_witness :
    tryAPIKey [tenantActive0] "k2" = .authAPIKey "t2" "k2" tenantActive0 :=
  (resolve_key_outcomes [tenantActive0] "k2" (by decide)).2.2.1 tenantActive0
    (by decide) (by decide)

/-- C6: a token issued by `GenerateJWT` verifies under the same secret before
its expiry and yields the issuing tenant's id; a token whose signature does
not match the MAC is rejected; a well-formed token at or past its expiry
instant is rejected as expired. -/
theorem jwt_roundtrip (mac : String → String → AuthClaims → Int) (secret : String)
    (expiry : Int) (tenant : Tenant) (tIss tVal : Int)
    (hnb : tIss ≤ tVal) (hexp : tVal < tIss + expiry) :
    (validateJWT mac secret (GenerateJWT mac secret expiry tenant tIss) tVal
        = .ok (GenerateJWT mac secret expiry tenant tIss).claims ∧
      (GenerateJWT mac secret expiry tenant tIss).claims.tenantID = tenant.id) ∧
    (∀ tok : Token, isHMAC tok.alg = true → tok.sig ≠ mac tok.alg secret tok.claims →
        validateJWT mac secret tok tVal = .error .badSignature) ∧
    (∀ tok : Token, isHMAC tok.alg = true → tok.sig = mac tok.alg secret tok.claims →
        tok.claims.expiresAt ≤ tVal →
        validateJWT mac secret tok tVal = .error .expired) := by
  refine ⟨⟨?_, rfl⟩, ?_, ?_⟩
  · have h1 : ¬ (tIss + expiry ≤ tVal) := by omega
    have h2 : ¬ (tVal < tIss) := by omega
    simp [validateJWT, GenerateJWT, isHMAC, h1, h2]
  · intro tok hh hs
    unfold validateJWT
    rw [if_neg (by simp [hh]), if_pos hs]
  · intro tok hh hs hpast
    unfold validateJWT
    rw [if_neg (by simp [hh]), if_neg (by simp [hs]), if_pos hpast]

/-- C6 witness: a token for the active tenant issued at 0 with expiry 10
verifies at 5 and yields the tenant id. -/
theorem jwt_roundtrip_witness :
    validateJWT mac0 "s" (GenerateJWT mac0 "s" 10 tenantActive0 0) 5
        = .ok (GenerateJWT mac0 "s" 10 tenantActive0 0).claims ∧
    (GenerateJWT mac0 "s" 10 tenantActive0 0).claims.tenantID = tenantActive0.id :=
  (jwt_roundtrip mac0 "s" 10 tenantActive0 0 5 (by decide) (by decide)).1

/-- C7: once the pipeline reaches the persistence write, a failed
`CreateEvent` yields the error response with no fan-out attempted and the hub
untouched; a successful write yields the 201 response and attempts fan-out,
and the response is the same whatever the hub state or serialization outcome
— no distribution failure reaches the caller. -/
theorem ingest_fire_and_forget (marshal : EventResponse → Option String)
    (d : IngestDeps) (hub : Hub) (tenant : Tenant)
    (hp : d.parseOK = true) (hu : d.uuidOK = true) (hl : d.tenantLookup = .ok tenant)
    (ha : tenant.active = true) (he : d.eventTypeOK = true) (ht : d.timestampOK = true)
    (hmeta : d.metadataOK = true) :
    (d.createOK = false → IngestEvent marshal d hub = (.createFailed, hub, false)) ∧
    (d.createOK = true →
        (IngestEvent marshal d hub).1
            = .created d.event.id d.event.tenantID d.event.eventType d.event.timestamp ∧
        (IngestEvent marshal d hub).2.2 = true ∧
        ∀ (marshal2 : EventResponse → Option String) (hub2 : Hub),
          (IngestEvent marshal2 d hub2).1 = (IngestEvent marshal d hub).1) := by
  constructor
  · intro hc
    simp [IngestEvent, hp, hu, hl, ha, he, ht, hmeta, hc]
  · intro hc
    refine ⟨?_, ?_, ?_⟩
    · simp [IngestEvent, hp, hu, hl, ha, he, ht, hmeta, hc]
    · simp [IngestEvent, hp, hu, hl, ha, he, ht, hmeta, hc]
    · intro marshal2 hub2
      simp [IngestEvent, hp, hu, hl, ha, he, ht, hmeta, hc]

/-- C7 witness: with every check passing and the write succeeding, the
response is the 201 payload of the stored event. -/
theorem ingest_fire_and_forget_witness :
    (IngestEvent marshal0
        { parseOK := true, uuidOK := true, tenantLookup := .ok tenantActive0,
          eventTypeOK := true, timestampOK := true, metadataOK := true,
          createOK := true, event := event0 } { clients := [] }).1
      = .created 7 "tA" "type.a" 3 :=
  ((ingest_fire_and_forget marshal0
      { parseOK := true, uuidOK := true, tenantLookup := .ok tenantActive0,
        eventTypeOK := true, timestampOK := true, metadataOK := true,
        createOK := true, event := event0 } { clients := [] } tenantActive0
      rfl rfl rfl rfl rfl rfl rfl).2 rfl).1

end EIS
